import Mathlib

/-!
Verification development for the LocalGPT background store
(`scripts/background/initialize.js`): a shallow embedding of the in-memory
database (`localDB`), its controllers (`addConversations`,
`getConversations`, `savePrompt`, `deletePrompt`, `getPrompts`,
`checkHasSubscription`, `registerUser`) and the message router
(`handleMessage` and the `chrome.runtime.onMessage` listener).

Modelling conventions:
* JS objects holding domain records become structures whose optional fields
  are `Option`-typed; absence (`undefined`) is `none`.  Fields the engine
  never inspects are kept as an opaque key-valued map `extra`.
* JS truthiness of a string is "present and non-empty"; of a number it is
  "non-zero"; of `isTrashed` it is `some true`.
* `Array.prototype.sort` with the descending-time comparator is modelled as
  a descending insertion sort.  Equal-timestamp order is left unspecified by
  the program's contract and no theorem below depends on it.  The source
  sorts the array held in `results` in place; the embedding makes that
  explicit by returning the possibly re-ordered store alongside the
  response.
* A JS `Map` is an insertion-ordered association list: `set` on a present
  key updates in place, on an absent key appends.
* `crypto.randomUUID()` is an oracle string passed in as a parameter.
* JS property lookup traverses the prototype chain, so `Controller[action]`
  is truthy not only for the seven declared controller names but also for
  the member names of `Object.prototype`; the dispatcher then calls the
  inherited member instead of reporting an unknown action.  Those calls are
  standard-library behaviour, abstracted as the `inherited` response (or a
  thrown `TypeError` for the non-callable / misused members).
* Controller exceptions are modelled with `Except`; the concrete controllers
  are total, and the router is additionally stated over an arbitrary
  controller table to capture its try/catch behaviour.
-/

namespace LocalGPT

/-- Opaque JS values stored in fields the engine does not interpret. -/
inductive JsVal where
  | vStr (s : String)
  | vNum (n : Int)
  | vBool (b : Bool)
deriving DecidableEq, Repr

/-- A conversation record: `id` plus the fields `getConversations` and the
merge logic look at, plus opaque extra fields. -/
structure Conversation where
  id : String
  title : Option String := none
  update_time : Option Int := none
  create_time : Option Int := none
  isTrashed : Option Bool := none
  extra : String → Option JsVal := fun _ => none

attribute [ext] Conversation

/-- A folder record (`id`, optional `conversationIds`). -/
structure Folder where
  id : String
  conversationIds : Option (List String) := none

/-- A prompt record: optional `id` plus opaque fields. -/
structure Prompt where
  id : Option String := none
  fields : String → Option JsVal := fun _ => none

attribute [ext] Prompt

/-- The singleton user record. -/
structure User where
  id : String
  email : String
  plan : String
  subscription_status : String
deriving DecidableEq, Repr

/-- The in-memory store `localDB`. -/
structure Store where
  conversations : List Conversation := []
  folders : List Folder := []
  prompts : List Prompt := []
  user : User := { id := "local-user", email := "local@localgpt.app",
                   plan := "pro", subscription_status := "active" }

/-- An inbound request message; every field the controllers destructure. -/
structure Request where
  type : Option String := none
  action : Option String := none
  page : Option Int := none
  limit : Option Int := none
  searchTerm : Option String := none
  folderId : Option String := none
  conversations : Option (List Conversation) := none
  prompt : Option Prompt := none
  id : Option String := none

/-- The response shape of `getConversations`. -/
structure GetResult where
  success : Bool
  conversations : List Conversation
  total : Nat
  page : Int
  limit : Int

/-- Responses sent through `sendResponse`.  The `inherited` constructor
abstracts the value returned by calling a member inherited from
`Object.prototype` through `Controller[action]` — for `toString` the string
"[object Object]" — whose exact shape is standard-library behaviour, not
this repository's code. -/
inductive Response where
  | subscriptionInfo (success hasSubscription : Bool) (plan planType : String)
  | userInfo (success : Bool) (user : User)
  | addResult (success : Bool) (count : Nat)
  | queryResult (r : GetResult)
  | promptsResult (success : Bool) (prompts : List Prompt)
  | promptResult (success : Bool) (prompt : Prompt)
  | okResult (success : Bool)
  | pingStatus (status : String)
  | failure (success : Bool) (error : String)
  | inherited (memberName : String)

/-- JS truthiness of an optional string (`undefined` and `""` are falsy). -/
def truthyStr : Option String → Bool
  | some s => s != ""
  | none => false

/-- JS `a || b` on optional strings, as in `request.type || request.action`. -/
def jsOrStr (a b : Option String) : Option String :=
  if truthyStr a then a else b

/-- JS `x || d` on an optional number (`undefined` and `0` are falsy). -/
def jsOrInt (a : Option Int) (d : Int) : Int :=
  match a with
  | some n => if n == 0 then d else n
  | none => d

/-- The effective timestamp used by the sort comparator:
`new Date(c.update_time || c.create_time || 0).getTime()`. -/
def effTime (c : Conversation) : Int :=
  jsOrInt c.update_time (jsOrInt c.create_time 0)

/-- Insert one conversation into a list already sorted by descending
effective time, before the first strictly older element. -/
def sortInsert (c : Conversation) : List Conversation → List Conversation
  | [] => [c]
  | d :: ds => if effTime d < effTime c then c :: d :: ds else d :: sortInsert c ds

/-- The `results.sort((a, b) => timeB - timeA)` step: sort by descending
effective timestamp.  The relative order of equal timestamps is an
implementation detail (this model reverses ties, ES2019 engines keep them);
no theorem below depends on tie order — each statement either compares two
runs of this same sort or asserts only a permutation. -/
def sortConvs (l : List Conversation) : List Conversation :=
  l.foldr sortInsert []

/-- JS `String.prototype.includes` (total occurrence test; the empty needle
always matches). -/
def jsIncludes (s t : String) : Bool :=
  if t = "" then true else (s.splitOn t).length > 1

/-- The search predicate
`c.title && c.title.toLowerCase().includes(lowerTerm)`. -/
def matchesSearch (term : String) (c : Conversation) : Bool :=
  match c.title with
  | some t => t != "" && jsIncludes t.toLower term.toLower
  | none => false

/-- JS truthiness of the `isTrashed` field. -/
def isTrashedTruthy (c : Conversation) : Bool :=
  c.isTrashed == some true

/-- JS `Array.prototype.slice(start, stop)` with signed indices. -/
def jsSlice {α : Type} (l : List α) (start stop : Int) : List α :=
  let len : Int := l.length
  let s := if start < 0 then max (len + start) 0 else min start len
  let e := if stop < 0 then max (len + stop) 0 else min stop len
  (l.drop s.toNat).take (e - s).toNat

/-- Step 1 of `getConversations` (`if (searchTerm) results = results.filter`):
the second component records whether `filter` produced a fresh array. -/
def searchStage (db : Store) (req : Request) : List Conversation × Bool :=
  if truthyStr req.searchTerm then
    (db.conversations.filter (matchesSearch (req.searchTerm.getD "")), true)
  else (db.conversations, false)

/-- Step 2 of `getConversations` (`if (folderId && folderId !== 'all')`):
folder lookup, then either the membership filter, the trash fallback, or the
unfiltered pass-through. -/
def folderStage (db : Store) (req : Request) (prev : List Conversation × Bool) :
    List Conversation × Bool :=
  if truthyStr req.folderId && (req.folderId.getD "") != "all" then
    match db.folders.find? (fun f => f.id == req.folderId.getD "") with
    | some folder =>
        (prev.1.filter (fun c => (folder.conversationIds.getD []).contains c.id), true)
    | none =>
        if req.folderId.getD "" == "trash" then
          (prev.1.filter isTrashedTruthy, true)
        else prev
  else prev

/-- `Controller.getConversations`: search filter, folder filter, in-place
sort, pagination.  The returned store reflects that `results.sort` mutates
`localDB.conversations` itself whenever no preceding `filter` call produced
a fresh array. -/
def getConversations (db : Store) (req : Request) : Store × GetResult :=
  let page := req.page.getD 1
  let limit := req.limit.getD 20
  let stage2 := folderStage db req (searchStage db req)
  let sorted := sortConvs stage2.1
  let db' := if stage2.2 then db else { db with conversations := sorted }
  let start := (page - 1) * limit
  (db',
   { success := true
     conversations := jsSlice sorted start (start + limit)
     total := sorted.length
     page := page
     limit := limit })

/-- JS object spread for conversations, `\x7b...existing, ...newC\x7d`:
fields present on the incoming record win, fields absent from it are kept
from the existing record. -/
def spread (e n : Conversation) : Conversation :=
  { id := n.id
    title := n.title.or e.title
    update_time := n.update_time.or e.update_time
    create_time := n.create_time.or e.create_time
    isTrashed := n.isTrashed.or e.isTrashed
    extra := fun k => (n.extra k).or (e.extra k) }

/-- A JS `Map` keyed by conversation id, as an insertion-ordered
association list. -/
abbrev ConvMap := List (String × Conversation)

/-- The keys of the map, in insertion order. -/
def mapKeys (m : ConvMap) : List String := m.map (·.1)

/-- `Map.prototype.get`. -/
def mapGet (m : ConvMap) (k : String) : Option Conversation :=
  (m.find? (fun p => p.1 == k)).map (·.2)

/-- `Map.prototype.set`: updating a present key keeps its position,
a new key is appended. -/
def mapSet (m : ConvMap) (k : String) (v : Conversation) : ConvMap :=
  if m.any (fun p => p.1 == k) then
    m.map (fun p => if p.1 == k then (k, v) else p)
  else m ++ [(k, v)]

/-- The update-in-place branch of `mapSet`, as its own function for the
proofs below. -/
def setAll (m : ConvMap) (k : String) (v : Conversation) : ConvMap :=
  m.map (fun p => if p.1 == k then (k, v) else p)

/-- The values of the map, in insertion order (`Array.from(map.values())`). -/
def mapValues (m : ConvMap) : List Conversation := m.map (·.2)

/-- `new Map(localDB.conversations.map(c => [c.id, c]))`.  The `Map`
constructor runs `set` for each entry in order. -/
def mapFromList (cs : List Conversation) : ConvMap :=
  cs.foldl (fun m c => mapSet m c.id c) []

/-- The body of the `newConvos.forEach` loop of the Map-based
`addConversations`. -/
def upsertIntoMap (m : ConvMap) (newC : Conversation) : ConvMap :=
  match mapGet m newC.id with
  | some existing => mapSet m newC.id (spread existing newC)
  | none => mapSet m newC.id newC

/-- The whole `forEach` loop over a batch. -/
def applyBatch (m : ConvMap) (batch : List Conversation) : ConvMap :=
  batch.foldl upsertIntoMap m

/-- `Controller.addConversations` (the Map-based version): upsert each
incoming record into a Map built from the current conversations, then, if
anything was processed, replace the conversations array with the Map's
values.  Returns the post-merge count. -/
def addConversations (db : Store) (req : Request) : Store × Response :=
  let newConvos := req.conversations.getD []
  let m := applyBatch (mapFromList db.conversations) newConvos
  let changed := !newConvos.isEmpty
  let convs := if changed then mapValues m else db.conversations
  ({ db with conversations := convs }, .addResult true convs.length)

/-- The body of the `forEach` loop of the findIndex-based
`addConversations`: replace the first record with a matching id by the
shallow merge, else push. -/
def upsertIntoList (cs : List Conversation) (newC : Conversation) : List Conversation :=
  match cs.findIdx? (fun c => c.id == newC.id) with
  | some i => cs.set i (spread (cs.getD i newC) newC)
  | none => cs ++ [newC]

/-- `Controller.addConversations` (the findIndex-based version): mutate the
conversations array record by record. -/
def addConversationsFindIdx (db : Store) (req : Request) : Store × Response :=
  let newConvos := req.conversations.getD []
  let convs := newConvos.foldl upsertIntoList db.conversations
  ({ db with conversations := convs }, .addResult true convs.length)

/-- `Controller.savePrompt` (the copying version): work on a copy of the
input, assign `freshId` when the copy has no truthy id, then replace the
first prompt with that id in place or append. -/
def savePrompt (freshId : String) (db : Store) (req : Request) : Store × Response :=
  let prompt := req.prompt.getD {}
  let promptCopy := if truthyStr prompt.id then prompt else { prompt with id := some freshId }
  let prompts' :=
    match db.prompts.findIdx? (fun p => p.id == promptCopy.id) with
    | some i => db.prompts.set i promptCopy
    | none => db.prompts ++ [promptCopy]
  ({ db with prompts := prompts' }, .promptResult true promptCopy)

/-- `Controller.deletePrompt`. -/
def deletePrompt (db : Store) (req : Request) : Store × Response :=
  ({ db with prompts := db.prompts.filter (fun p => p.id != req.id) }, .okResult true)

/-- The action names that are own properties of the `Controller` object. -/
def controllerNames : List String :=
  ["checkHasSubscription", "registerUser", "addConversations",
   "getConversations", "getPrompts", "savePrompt", "deletePrompt"]

/-- Run one named controller.  All concrete controllers are total, so each
returns `.ok`; the name is only consulted for dispatch. -/
def runController (freshId : String) (name : String) (db : Store) (req : Request) :
    Except String (Store × Response) :=
  match name with
  | "checkHasSubscription" => .ok (db, .subscriptionInfo true true "pro" "stripe")
  | "registerUser" => .ok (db, .userInfo true db.user)
  | "addConversations" => .ok (addConversations db req)
  | "getConversations" =>
      .ok ((getConversations db req).1, .queryResult (getConversations db req).2)
  | "getPrompts" => .ok (db, .promptsResult true db.prompts)
  | "savePrompt" => .ok (savePrompt freshId db req)
  | "deletePrompt" => .ok (deletePrompt db req)
  | _ => .error "not a controller"

/-- The member names that JS property lookup finds on `Object.prototype`
when no own property of `Controller` matches: for these action names
`Controller[action]` is truthy too, so `handleMessage` takes the controller
branch instead of answering "Unknown action". -/
def protoNames : List String :=
  ["constructor", "hasOwnProperty", "isPrototypeOf", "propertyIsEnumerable",
   "toLocaleString", "toString", "valueOf", "__defineGetter__",
   "__defineSetter__", "__lookupGetter__", "__lookupSetter__", "__proto__"]

/-- Modelled from JS `Object.prototype` semantics (standard-library
behaviour, not this repository's code): the call
`Controller[name](request)` of an inherited member.  `toString` and
`toLocaleString` return the string "[object Object]", the predicate members
return a boolean, `valueOf`/`constructor`/the lookup members return an
object or `undefined` — all abstracted as the opaque `inherited` response;
`__proto__` is an accessor whose value (`Object.prototype`) is not
callable, and the getter/setter definers reject the non-function argument,
so those calls throw a `TypeError`, modelled as `Except.error` so it is
caught by `handleMessage`'s try/catch. -/
def inheritedMember (name : String) :
    Store → Request → Except String (Store × Response) :=
  fun db _ =>
    if name = "__proto__" then .error "Controller.__proto__ is not a function"
    else if name = "__defineGetter__" then .error "Getter must be a function"
    else if name = "__defineSetter__" then .error "Setter must be a function"
    else .ok (db, .inherited name)

/-- The lookup `Controller[action]`: truthy for the seven declared action
names (their own controllers) and for the `Object.prototype` member names
reached through the prototype chain; undefined for everything else. -/
def controllerTable (freshId : String) :
    String → Option (Store → Request → Except String (Store × Response)) :=
  fun name =>
    if name ∈ controllerNames then some (runController freshId name)
    else if name ∈ protoNames then some (inheritedMember name)
    else none

/-- `handleMessage`, parametrised by the controller table so that the
try/catch translation of arbitrary controller faults is statable: resolve
`request.type || request.action`, run the matching controller inside
try/catch, else answer the ping liveness check, else report an unknown
action. -/
def handleMessageWith
    (table : String → Option (Store → Request → Except String (Store × Response)))
    (db : Store) (req : Request) : Store × Response :=
  let action := jsOrStr req.type req.action
  match action.bind table with
  | some run =>
      match run db req with
      | .ok res => res
      | .error msg => (db, .failure false msg)
  | none =>
      if action == some "ping" then (db, .pingStatus "ok")
      else (db, .failure false "Unknown action")

/-- The concrete `handleMessage` of the source. -/
def handleMessage (freshId : String) (db : Store) (req : Request) : Store × Response :=
  handleMessageWith (controllerTable freshId) db req

/-- The `chrome.runtime.onMessage` listener.  `readyAt i` is the value of
`isDBReady` at the i-th readiness poll (instant 0 covers both the
synchronous entry check and the retry loop's first iteration, which observe
the same state); the request is handled at the first ready instant within
the budget of 10 polls, otherwise it fails with the initialization-timeout
error.  `db` is the store at handling time. -/
def onMessage (readyAt : Nat → Bool) (freshId : String) (db : Store) (req : Request) :
    Store × Response :=
  if (List.range 10).any readyAt then handleMessage freshId db req
  else (db, .failure false "Database initialization timeout")

/-- The sequence of conversation ids, for stating the at-most-one-per-id
store invariant. -/
def idList (cs : List Conversation) : List String := cs.map (fun c => c.id)

/-- Well-formedness of a conversation map: distinct keys, and every entry's
value carries its key as id.  Every map the code builds satisfies this. -/
def goodMap (m : ConvMap) : Prop :=
  (mapKeys m).Nodup ∧ ∀ p ∈ m, p.2.id = p.1

/-- One upsert step at the level of a single id: merge into the existing
record if there is one, else take the incoming record. -/
def mergeStep (o : Option Conversation) (n : Conversation) : Option Conversation :=
  match o with
  | some e => some (spread e n)
  | none => some n

/-- Folding a whole batch of same-id records over an optional existing
record; used to state what `addConversations` does to each id. -/
def mergeChain (o : Option Conversation) (batch : List Conversation) : Option Conversation :=
  batch.foldl mergeStep o

/-- Folding successive shallow merges over a record. -/
def convFold (y : Conversation) (L : List Conversation) : Conversation :=
  L.foldl spread y

/-- A conversation with effective timestamp 1, used to instantiate theorems
at concrete inputs. -/
def cW1 : Conversation := { id := "w1", update_time := some 1 }

/-- A conversation with effective timestamp 2. -/
def cW2 : Conversation := { id := "w2", update_time := some 2 }

/-- A trashed conversation. -/
def cWTrash : Conversation := { id := "wt", isTrashed := some true }

/-- The merge-precedence example's existing record: id "1", title "A" and
an extra field x carrying 1. -/
def cEx : Conversation :=
  { id := "1", title := some "A",
    extra := fun s => if s == "x" then some (.vNum 1) else none }

/-- The merge-precedence example's incoming record: id "1", title "B". -/
def nEx : Conversation := { id := "1", title := some "B" }

/-- A controller table with one always-throwing controller, used to
instantiate the dispatch-gateway fault handling at a concrete input. -/
def boomTable : String → Option (Store → Request → Except String (Store × Response)) :=
  fun name => if name = "boom" then some (fun _ _ => .error "kaboom") else none

/-! Helper lemmas about the query pipeline. -/

lemma sortInsert_perm (c : Conversation) (l : List Conversation) :
    (sortInsert c l).Perm (c :: l) := by
  induction l with
  | nil => exact List.Perm.refl _
  | cons d ds ih =>
    unfold sortInsert
    split
    · exact List.Perm.refl _
    · exact (ih.cons d).trans (List.Perm.swap c d ds)

lemma sortConvs_perm (l : List Conversation) : (sortConvs l).Perm l := by
  induction l with
  | nil => exact List.Perm.refl _
  | cons c t ih => exact (sortInsert_perm c (sortConvs t)).trans (ih.cons c)

lemma folderStage_cases (db : Store) (req : Request) (p : List Conversation × Bool) :
    (folderStage db req p).2 = true ∨ folderStage db req p = p := by
  unfold folderStage
  split
  · split
    · left; rfl
    · split
      · left; rfl
      · right; rfl
  · right; rfl

lemma searchStage_of_not_truthy (db : Store) (req : Request)
    (h : truthyStr req.searchTerm = false) :
    searchStage db req = (db.conversations, false) := by
  unfold searchStage; simp [h]

lemma searchStage_snd_of_truthy (db : Store) (req : Request)
    (h : truthyStr req.searchTerm = true) :
    (searchStage db req).2 = true := by
  unfold searchStage; simp [h]

lemma getConversations_fst (db : Store) (req : Request) :
    (getConversations db req).1 = db ∨
      ((getConversations db req).1 = { db with conversations := sortConvs db.conversations } ∧
        truthyStr req.searchTerm = false) := by
  rcases folderStage_cases db req (searchStage db req) with h | h
  · left; simp only [getConversations, h, if_true]
  · by_cases hs : truthyStr req.searchTerm
    · left
      have h2 : (folderStage db req (searchStage db req)).2 = true := by
        rw [h]; exact searchStage_snd_of_truthy db req hs
      simp only [getConversations, h2, if_true]
    · right
      have hs' : truthyStr req.searchTerm = false := by simpa using hs
      refine ⟨?_, hs'⟩
      have h1 : searchStage db req = (db.conversations, false) :=
        searchStage_of_not_truthy db req hs'
      simp only [getConversations]
      rw [h, h1]
      simp

/-! Claim theorems for the query pipeline and the dispatch gateway. -/

/-- C1, counterexample: with a real folder whose id is "trash" present in
the folders collection (here with an empty `conversationIds`), a
`folderId = "trash"` request returns that folder's member conversations
(none) instead of the trashed conversations (one), so the claim as stated
is false. -/
theorem c1_counterexample :
    ((getConversations
        { conversations := [cWTrash], folders := [{ id := "trash", conversationIds := some [] }] }
        { folderId := some "trash" }).2.conversations.length = 0) ∧
    ((({ conversations := [cWTrash],
         folders := [{ id := "trash", conversationIds := some [] }] } : Store).conversations.filter
        isTrashedTruthy).length = 1) ∧
    (getConversations
        { conversations := [cWTrash], folders := [{ id := "trash", conversationIds := some [] }] }
        { folderId := some "trash" }).2.conversations ≠
      ({ conversations := [cWTrash],
         folders := [{ id := "trash", conversationIds := some [] }] } : Store).conversations.filter
        isTrashedTruthy := by
  refine ⟨rfl, rfl, fun h => ?_⟩
  exact absurd (congrArg List.length h) (by decide)

/-- C1 (amended): when no folder whose id is "trash" exists in the folders
collection, a `folderId = "trash"` request with no search term answers
exactly as if the store held only the conversations with a truthy
`isTrashed` flag and no folder filter were given: the trashed
conversations, sorted and paginated as usual.  (When such a folder exists,
its membership filter applies instead — see the counterexample.) -/
theorem c1_trash_amended (db : Store) (req : Request)
    (hsearch : req.searchTerm = none) (hfid : req.folderId = some "trash")
    (hfind : db.folders.find? (fun f => f.id == "trash") = none) :
    (getConversations db req).2 =
      (getConversations
        { db with conversations := db.conversations.filter isTrashedTruthy }
        { req with folderId := none }).2 := by
  obtain ⟨ty, ac, pg, lim, st, fo, cv, pr, i⟩ := req
  simp only at hsearch hfid
  subst hsearch hfid
  simp [getConversations, folderStage, searchStage, truthyStr, hfind]

/-- C1, witness: the amended theorem applied at a store with one trashed
and one plain conversation and no folders. -/
theorem c1_witness :
    (({ conversations := [cWTrash, cW1] } : Store).folders.find?
        (fun f => f.id == "trash") = none) ∧
    (getConversations { conversations := [cWTrash, cW1] } { folderId := some "trash" }).2 =
      (getConversations
        { ({ conversations := [cWTrash, cW1] } : Store) with
            conversations := ([cWTrash, cW1].filter isTrashedTruthy) }
        { ({ folderId := some "trash" } : Request) with folderId := none }).2 :=
  ⟨rfl, c1_trash_amended { conversations := [cWTrash, cW1] } { folderId := some "trash" }
    rfl rfl rfl⟩

/-- C2, counterexample: with two conversations stored in ascending
timestamp order and a request with no search term and no folder id,
`getConversations` sorts the store's own conversations array in place, so
the State Container is changed (the sequence is reordered), refuting the
pure-read claim. -/
theorem c2_counterexample :
    ((getConversations { conversations := [cW1, cW2] } {}).1.conversations.map
        (fun c => c.id) = ["w2", "w1"]) ∧
    (({ conversations := [cW1, cW2] } : Store).conversations.map (fun c => c.id) =
        ["w1", "w2"]) ∧
    (getConversations { conversations := [cW1, cW2] } {}).1 ≠
      ({ conversations := [cW1, cW2] } : Store) := by
  refine ⟨rfl, rfl, fun h => ?_⟩
  exact absurd (congrArg (fun s => s.conversations.map (fun c => c.id)) h) (by decide)

/-- C2 (amended): `getConversations` never adds, removes or rewrites
conversation records — the resulting conversations collection is a
permutation of the original — and leaves folders, prompts and the user
untouched; but when neither filter produces a fresh array it reorders the
stored conversations in place, so the store is only guaranteed to be
exactly unchanged when a filter applied (in particular whenever the search
term is truthy). -/
theorem c2_frame_amended (db : Store) (req : Request) :
    ((getConversations db req).1.conversations.Perm db.conversations) ∧
    (getConversations db req).1.folders = db.folders ∧
    (getConversations db req).1.prompts = db.prompts ∧
    (getConversations db req).1.user = db.user ∧
    (truthyStr req.searchTerm = true → (getConversations db req).1 = db) := by
  rcases getConversations_fst db req with h | ⟨h, hs⟩
  · rw [h]; exact ⟨List.Perm.refl _, rfl, rfl, rfl, fun _ => rfl⟩
  · rw [h]
    exact ⟨sortConvs_perm _, rfl, rfl, rfl, fun ht => absurd ht (by simp [hs])⟩

/-- C2, witness: the amended theorem applied with a truthy search term, in
which case the store is exactly unchanged. -/
theorem c2_witness :
    truthyStr (some "hello" : Option String) = true ∧
    (getConversations { conversations := [cW1, cW2] } { searchTerm := some "hello" }).1 =
      ({ conversations := [cW1, cW2] } : Store) :=
  ⟨rfl, (c2_frame_amended { conversations := [cW1, cW2] }
      { searchTerm := some "hello" }).2.2.2.2 rfl⟩

/-- C3, counterexample: a ping request that arrives while the store is not
ready is subjected to the same readiness retry loop as every other request;
if the store never becomes ready within the 10-poll budget the listener
answers with the initialization-timeout failure, not with the static
acknowledgment, so the claim as stated is false. -/
theorem c3_counterexample :
    (onMessage (fun _ => false) "uuid-1" {} { action := some "ping" }).2 =
        Response.failure false "Database initialization timeout" ∧
    (onMessage (fun _ => false) "uuid-1" {} { action := some "ping" }).2 ≠
        Response.pingStatus "ok" :=
  ⟨rfl, fun h => Response.noConfusion h⟩

/-- C3 (amended): whenever the readiness gate lets the request through —
the store is ready at arrival or becomes ready at some poll within the
retry budget — a request whose resolved action is "ping" bypasses all
controllers and gets the static acknowledgment with status "ok", with the
store untouched; while never-ready it instead times out (see the
counterexample). -/
theorem c3_ping_amended (readyAt : Nat → Bool) (freshId : String) (db : Store) (req : Request)
    (hping : jsOrStr req.type req.action = some "ping")
    (hready : (List.range 10).any readyAt = true) :
    onMessage readyAt freshId db req = (db, .pingStatus "ok") := by
  unfold onMessage
  rw [hready]
  simp only [if_true]
  unfold handleMessage handleMessageWith
  rw [hping]
  simp [controllerTable, controllerNames, protoNames]

/-- C3, witness: the amended theorem applied with an always-ready store. -/
theorem c3_witness :
    (jsOrStr (none : Option String) (some "ping") = some "ping") ∧
    ((List.range 10).any (fun _ => true) = true) ∧
    onMessage (fun _ => true) "uuid-1" {} { action := some "ping" } =
      (({} : Store), .pingStatus "ok") :=
  ⟨rfl, rfl, c3_ping_amended (fun _ => true) "uuid-1" {} { action := some "ping" } rfl rfl⟩

/-- C6: a request whose folderId is truthy, neither "all" nor "trash", and
matches no folder id yields exactly the outcome of the same request with no
folderId at all — same response and same store effect (still text-filtered,
sorted and paginated; not empty, not an error). -/
theorem c6_folder_fallback (db : Store) (req : Request) (fid : String)
    (hfid : req.folderId = some fid) (hne : fid ≠ "") (hall : fid ≠ "all")
    (htrash : fid ≠ "trash")
    (hfind : db.folders.find? (fun f => f.id == fid) = none) :
    getConversations db req = getConversations db { req with folderId := none } := by
  obtain ⟨ty, ac, pg, lim, st, fo, cv, pr, i⟩ := req
  simp only at hfid
  subst hfid
  simp [getConversations, folderStage, searchStage, truthyStr, hne, hall, htrash, hfind]

/-- C6, witness: the fallback theorem applied at a store that has a folder,
just not the requested one. -/
theorem c6_witness :
    (({ conversations := [cW1, cW2], folders := [{ id := "f1" }] } : Store).folders.find?
        (fun f => f.id == "ghost") = none) ∧
    getConversations { conversations := [cW1, cW2], folders := [{ id := "f1" }] }
        { folderId := some "ghost" } =
      getConversations { conversations := [cW1, cW2], folders := [{ id := "f1" }] }
        { ({ folderId := some "ghost" } : Request) with folderId := none } :=
  ⟨rfl, c6_folder_fallback { conversations := [cW1, cW2], folders := [{ id := "f1" }] }
      { folderId := some "ghost" } "ghost" rfl (by decide) (by decide) (by decide) rfl⟩

/-- C9, counterexample: the action name "toString" matches no declared
controller and is not "ping", yet the dispatcher does not answer the
structured Unknown-action failure: JS property lookup finds the inherited
`Object.prototype.toString`, so `Controller["toString"]` is truthy and the
dispatcher calls it and sends its result (the string "[object Object]",
abstracted as `Response.inherited "toString"`). -/
theorem c9_counterexample :
    ("toString" ∉ controllerNames) ∧ ("toString" : String) ≠ "ping" ∧
    handleMessage "uuid-1" {} { type := some "toString" } =
        (({} : Store), Response.inherited "toString") ∧
    (handleMessage "uuid-1" {} { type := some "toString" }).2 ≠
        Response.failure false "Unknown action" :=
  ⟨by decide, by decide, rfl, fun h => Response.noConfusion h⟩

/-- C9 (amended): once a request reaches `handleMessage`, (1) an action
name that matches none of the declared controllers, is not "ping", and is
not one of the `Object.prototype` member names reached by JS
prototype-chain lookup gets the structured "Unknown action" failure (for a
prototype member name the inherited member is called instead — see the
counterexample); and (2) for any controller table, a controller that
finishes with an exception is caught and converted into a structured
failure carrying the exception's message; in both cases the store is left
unchanged and nothing propagates. -/
theorem c9_dispatch_amended :
    (∀ (freshId : String) (db : Store) (req : Request),
        (∀ s, jsOrStr req.type req.action = some s →
          s ∉ controllerNames ∧ s ∉ protoNames ∧ s ≠ "ping") →
        handleMessage freshId db req = (db, .failure false "Unknown action")) ∧
    (∀ (table : String → Option (Store → Request → Except String (Store × Response)))
        (db : Store) (req : Request)
        (f : Store → Request → Except String (Store × Response)) (msg : String),
        (jsOrStr req.type req.action).bind table = some f →
        f db req = .error msg →
        handleMessageWith table db req = (db, .failure false msg)) := by
  constructor
  · intro freshId db req hna
    unfold handleMessage handleMessageWith
    cases h : jsOrStr req.type req.action with
    | none => simp
    | some s =>
      obtain ⟨hnc, hnpr, hnp⟩ := hna s h
      have ht : controllerTable freshId s = none := by
        unfold controllerTable; simp [hnc, hnpr]
      simp [ht, hnp]
  · intro table db req f msg hb hr
    unfold handleMessageWith
    simp only [hb, hr]

/-- C9, witness: the amended dispatch theorem applied to an action name
that hits neither a controller nor a prototype member, and to a concrete
throwing controller. -/
theorem c9_witness :
    handleMessage "uuid-1" {} { type := some "bogus" } =
        (({} : Store), .failure false "Unknown action") ∧
    handleMessageWith boomTable {} { type := some "boom" } =
        (({} : Store), .failure false "kaboom") := by
  constructor
  · refine c9_dispatch_amended.1 "uuid-1" {} { type := some "bogus" } (fun s hs => ?_)
    have hs' : s = "bogus" := by
      simp [jsOrStr, truthyStr] at hs
      exact hs.symm
    subst hs'
    exact ⟨by decide, by decide, by decide⟩
  · exact c9_dispatch_amended.2 boomTable {} { type := some "boom" }
      (fun _ _ => .error "kaboom") "kaboom" rfl rfl

/-- C8: `savePrompt` works on a copy of the input prompt: the stored record
keeps all the input's fields, only the identity is resolved — kept when the
input's id is truthy, replaced by the generated fresh id otherwise (so an
input without an id is itself untouched); with a fresh generated id the
prompt is appended; with an existing id the prompt is replaced at its
position without growing the collection, or appended if no prompt carries
it; and the response returns exactly the stored copy. -/
theorem c8_savePrompt (freshId : String) (db : Store) (req : Request) (p : Prompt)
    (hp : req.prompt = some p)
    (hfresh : truthyStr p.id = false → (some freshId) ∉ db.prompts.map (fun q => q.id)) :
    (savePrompt freshId db req).2 =
        .promptResult true (if truthyStr p.id then p else { p with id := some freshId }) ∧
    (if truthyStr p.id then p else { p with id := some freshId }).fields = p.fields ∧
    (truthyStr p.id = false →
        (savePrompt freshId db req).1.prompts = db.prompts ++ [{ p with id := some freshId }]) ∧
    (∀ i, truthyStr p.id = true →
        db.prompts.findIdx? (fun q => q.id == p.id) = some i →
        (savePrompt freshId db req).1.prompts = db.prompts.set i p ∧
        (savePrompt freshId db req).1.prompts.length = db.prompts.length) ∧
    (truthyStr p.id = true → db.prompts.findIdx? (fun q => q.id == p.id) = none →
        (savePrompt freshId db req).1.prompts = db.prompts ++ [p]) := by
  by_cases ht : truthyStr p.id
  · simp only [savePrompt, hp, Option.getD_some]
    rw [if_pos ht]
    refine ⟨by trivial, by trivial, fun hf => absurd ht (by simp [hf]), fun i _ hidx => ?_,
      fun _ hnone => ?_⟩
    · rw [hidx]
      exact ⟨rfl, by simp [List.length_set]⟩
    · rw [hnone]
  · have ht' : truthyStr p.id = false := by simpa using ht
    have hnone : db.prompts.findIdx?
        (fun q => q.id == ({ p with id := some freshId } : Prompt).id) = none := by
      rw [List.findIdx?_eq_none_iff]
      intro q hq
      have hne : q.id ≠ some freshId := by
        intro he
        exact hfresh ht' (by rw [← he]; exact List.mem_map_of_mem _ hq)
      simp [hne]
    simp only [savePrompt, hp, Option.getD_some]
    rw [if_neg ht, hnone]
    exact ⟨by trivial, by trivial, fun _ => by trivial,
      fun i hcon => absurd hcon (by simp [ht']),
      fun hcon => absurd hcon (by simp [ht'])⟩

/-- C8, witness: the upsert theorem applied to an id-less input prompt and
a store already holding one prompt: the stored copy gets the fresh id and
is appended. -/
theorem c8_witness :
    (truthyStr (none : Option String) = false →
      (some "uuid-1" : Option String) ∉
        ([{ id := some "p0" }] : List Prompt).map (fun q => q.id)) ∧
    (savePrompt "uuid-1" { prompts := [{ id := some "p0" }] } { prompt := some {} }).1.prompts =
      ([{ id := some "p0" }] : List Prompt) ++ [{ ({} : Prompt) with id := some "uuid-1" }] :=
  ⟨fun _ => by decide,
   (c8_savePrompt "uuid-1" { prompts := [{ id := some "p0" }] } { prompt := some {} } {}
      rfl (fun _ => by decide)).2.2.1 rfl⟩


/-! Helper lemmas for the merge engine: the Option-or algebra of the
shallow spread merge, and the association-list model of the JS Map. -/

lemma opt_absorb2 {α : Type} (C a u : Option α) (h : a.or u = u) :
    C.or (a.or (C.or u)) = C.or u := by
  cases a with
  | none => simp [Option.none_or, ← Option.or_assoc, Option.or_self]
  | some v =>
    have hu : u = some v := by rw [← h]; rfl
    subst hu
    rfl

lemma foldl_or_shift {α : Type} (f : Conversation → Option α) :
    ∀ (L : List Conversation) (a : Option α),
      L.foldl (fun acc n => (f n).or acc) a =
        (L.foldl (fun acc n => (f n).or acc) none).or a := by
  intro L
  induction L with
  | nil => intro a; simp [Option.none_or]
  | cons n rest ih =>
    intro a
    simp only [List.foldl_cons]
    rw [ih ((f n).or a), ih ((f n).or none)]
    simp [Option.or_none, Option.or_assoc]

lemma convFold_proj {α : Type} (f : Conversation → Option α)
    (hf : ∀ e n, f (spread e n) = (f n).or (f e)) :
    ∀ (L : List Conversation) (x : Conversation),
      f (convFold x L) = (L.foldl (fun acc n => (f n).or acc) none).or (f x) := by
  intro L
  induction L with
  | nil => intro x; simp [convFold, Option.none_or]
  | cons n rest ih =>
    intro x
    simp only [convFold, List.foldl_cons] at *
    rw [ih (spread x n), hf, foldl_or_shift f rest ((f n).or none)]
    simp [Option.or_none, Option.or_assoc]

lemma convFold_id_congr :
    ∀ (L : List Conversation) (y y' : Conversation), y.id = y'.id →
      (convFold y L).id = (convFold y' L).id := by
  intro L
  induction L with
  | nil => intro y y' h; exact h
  | cons n rest ih =>
    intro y y' h
    simp only [convFold, List.foldl_cons] at *
    exact ih (spread y n) (spread y' n) rfl

lemma spread_proj_or (y n : Conversation) (H : spread y n = y) :
    (n.title).or y.title = y.title ∧
    (n.update_time).or y.update_time = y.update_time ∧
    (n.create_time).or y.create_time = y.create_time ∧
    (n.isTrashed).or y.isTrashed = y.isTrashed ∧
    (∀ s, (n.extra s).or (y.extra s) = y.extra s) ∧
    n.id = y.id := by
  refine ⟨congrArg Conversation.title H, congrArg Conversation.update_time H,
    congrArg Conversation.create_time H, congrArg Conversation.isTrashed H,
    fun s => ?_, by simpa [spread] using congrArg Conversation.id H⟩
  have := congrArg Conversation.extra H
  exact congrFun this s

lemma convFold_absorb_field {α : Type} (f : Conversation → Option α)
    (hf : ∀ e nn : Conversation, f (spread e nn) = (f nn).or (f e))
    (L : List Conversation) (y n : Conversation) (h : (f n).or (f y) = f y) :
    f (convFold (spread (convFold y L) n) L) = f (convFold y L) := by
  rw [convFold_proj f hf L (spread (convFold y L) n), hf (convFold y L) n,
      convFold_proj f hf L y]
  exact opt_absorb2 _ (f n) (f y) h

lemma convFold_absorb_of (L : List Conversation) (y n : Conversation)
    (H : spread y n = y) :
    convFold (spread (convFold y L) n) L = convFold y L := by
  obtain ⟨h1, h2, h3, h4, h5, h6⟩ := spread_proj_or y n H
  refine Conversation.ext ?_ ?_ ?_ ?_ ?_ ?_
  · apply convFold_id_congr
    show (spread (convFold y L) n).id = y.id
    simpa [spread] using h6
  · exact convFold_absorb_field (fun c => c.title) (fun _ _ => rfl) L y n h1
  · exact convFold_absorb_field (fun c => c.update_time) (fun _ _ => rfl) L y n h2
  · exact convFold_absorb_field (fun c => c.create_time) (fun _ _ => rfl) L y n h3
  · exact convFold_absorb_field (fun c => c.isTrashed) (fun _ _ => rfl) L y n h4
  · funext s
    exact convFold_absorb_field (fun c => c.extra s) (fun _ _ => rfl) L y n (h5 s)



lemma spread_spread (e n : Conversation) : spread (spread e n) n = spread e n := by
  refine Conversation.ext rfl ?_ ?_ ?_ ?_ ?_ <;>
    simp [spread, ← Option.or_assoc, Option.or_self]

lemma spread_self (n : Conversation) : spread n n = n := by
  refine Conversation.ext rfl ?_ ?_ ?_ ?_ ?_ <;>
    simp [spread, Option.or_self]

lemma mergeChain_some (y : Conversation) :
    ∀ (L : List Conversation), mergeChain (some y) L = some (convFold y L) := by
  intro L
  induction L generalizing y with
  | nil => rfl
  | cons n rest ih =>
    simp only [mergeChain, convFold, List.foldl_cons, mergeStep] at *
    exact ih (spread y n)

lemma mergeChain_absorb (x : Option Conversation) (L : List Conversation) :
    mergeChain (mergeChain x L) L = mergeChain x L := by
  cases L with
  | nil => rfl
  | cons n rest =>
    have hstep : ∃ y0, mergeStep x n = some y0 ∧ spread y0 n = y0 := by
      cases x with
      | some e => exact ⟨spread e n, rfl, spread_spread e n⟩
      | none => exact ⟨n, rfl, spread_self n⟩
    obtain ⟨y0, hy0, habs⟩ := hstep
    have h1 : mergeChain x (n :: rest) = some (convFold y0 rest) := by
      simp only [mergeChain, List.foldl_cons, hy0]
      exact mergeChain_some y0 rest
    rw [h1]
    have h2 : mergeChain (some (convFold y0 rest)) (n :: rest) =
        some (convFold (spread (convFold y0 rest) n) rest) := by
      simp only [mergeChain, List.foldl_cons, mergeStep]
      exact mergeChain_some _ rest
    rw [h2, convFold_absorb_of rest y0 n habs]

lemma any_key_eq (m : ConvMap) (k : String) :
    (m.any (fun p => p.1 == k)) = true ↔ k ∈ mapKeys m := by
  simp [mapKeys, List.any_eq_true, List.mem_map, beq_iff_eq]

lemma mapSet_eq_setAll {m : ConvMap} {k : String} (v : Conversation)
    (h : k ∈ mapKeys m) : mapSet m k v = setAll m k v := by
  unfold mapSet setAll
  rw [if_pos ((any_key_eq m k).2 h)]

lemma mapSet_eq_append {m : ConvMap} {k : String} (v : Conversation)
    (h : k ∉ mapKeys m) : mapSet m k v = m ++ [(k, v)] := by
  unfold mapSet
  rw [if_neg (fun hc => h ((any_key_eq m k).1 hc))]

lemma setAll_cons (p : String × Conversation) (t : ConvMap) (k : String) (v : Conversation) :
    setAll (p :: t) k v = (if p.1 == k then (k, v) else p) :: setAll t k v := rfl

lemma mapKeys_cons (p : String × Conversation) (t : ConvMap) :
    mapKeys (p :: t) = p.1 :: mapKeys t := rfl

lemma mapGet_cons (p : String × Conversation) (t : ConvMap) (k : String) :
    mapGet (p :: t) k = if p.1 == k then some p.2 else mapGet t k := by
  simp only [mapGet, List.find?_cons]
  cases h : (p.1 == k) <;> simp [h]

lemma mapGet_eq_none_iff (m : ConvMap) (k : String) :
    mapGet m k = none ↔ k ∉ mapKeys m := by
  unfold mapGet
  rw [Option.map_eq_none', List.find?_eq_none]
  constructor
  · intro h hk
    obtain ⟨p, hp, he⟩ := List.mem_map.1 hk
    exact h p hp (by simp [he])
  · intro h p hp he
    rw [beq_iff_eq] at he
    exact h (List.mem_map.2 ⟨p, hp, he⟩)

lemma mapGet_setAll_self {m : ConvMap} {k : String} (v : Conversation)
    (h : k ∈ mapKeys m) : mapGet (setAll m k v) k = some v := by
  induction m with
  | nil => simp [mapKeys] at h
  | cons p t ih =>
    rw [setAll_cons, mapGet_cons]
    cases hb : (p.1 == k) with
    | true =>
      simp only [hb, if_true]
      simp
    | false =>
      have hp : p.1 ≠ k := by simpa using hb
      have h1 : k ∈ mapKeys t := by
        rcases List.mem_cons.1 (by rw [← mapKeys_cons]; exact h) with h2 | h2
        · exact absurd h2.symm hp
        · exact h2
      simp only [hb, if_false, Bool.false_eq_true]
      exact ih h1

lemma mapGet_setAll_ne (m : ConvMap) {k' k : String} (v : Conversation)
    (hkk : k' ≠ k) : mapGet (setAll m k v) k' = mapGet m k' := by
  induction m with
  | nil => rfl
  | cons p t ih =>
    rw [setAll_cons, mapGet_cons, mapGet_cons]
    cases hb : (p.1 == k) with
    | true =>
      have hp : p.1 = k := by simpa using hb
      have h1 : (((k, v) : String × Conversation).1 == k') = false := by
        simp [Ne.symm hkk]
      have h2 : (p.1 == k') = false := by
        rw [hp]; simp [Ne.symm hkk]
      simp only [hb, if_true, h1, h2, Bool.false_eq_true, if_false]
      exact ih
    | false =>
      simp only [hb, Bool.false_eq_true, if_false]
      rw [ih]

lemma mapGet_append_single (m : ConvMap) (k k' : String) (v : Conversation) :
    mapGet (m ++ [(k, v)]) k' =
      (mapGet m k').or (if k == k' then some v else none) := by
  induction m with
  | nil =>
    rw [List.nil_append]
    rw [mapGet_cons]
    cases h : (k == k') <;> simp [h, mapGet, Option.none_or]
  | cons p t ih =>
    rw [List.cons_append, mapGet_cons, mapGet_cons, ih]
    cases h : (p.1 == k') <;> simp [h, Option.none_or]

lemma mapGet_mapSet_self (m : ConvMap) (k : String) (v : Conversation) :
    mapGet (mapSet m k v) k = some v := by
  by_cases h : k ∈ mapKeys m
  · rw [mapSet_eq_setAll v h, mapGet_setAll_self v h]
  · rw [mapSet_eq_append v h, mapGet_append_single]
    rw [(mapGet_eq_none_iff m k).2 h]
    simp [Option.none_or]

lemma mapGet_mapSet_ne (m : ConvMap) (k k' : String) (v : Conversation)
    (hkk : k' ≠ k) : mapGet (mapSet m k v) k' = mapGet m k' := by
  by_cases h : k ∈ mapKeys m
  · rw [mapSet_eq_setAll v h, mapGet_setAll_ne m v hkk]
  · rw [mapSet_eq_append v h, mapGet_append_single]
    have hb : (k == k') = false := by simp [Ne.symm hkk]
    simp [hb, Option.or_none]

lemma mapKeys_setAll (m : ConvMap) (k : String) (v : Conversation) :
    mapKeys (setAll m k v) = mapKeys m := by
  simp only [mapKeys, setAll, List.map_map]
  apply List.map_congr_left
  intro p hp
  cases hb : (p.1 == k) with
  | true =>
    simp only [Function.comp_apply, if_pos hb]
    exact (by simpa using hb : p.1 = k).symm
  | false =>
    simp only [Function.comp_apply, hb, Bool.false_eq_true, if_false]

lemma mapKeys_append_single (m : ConvMap) (k : String) (v : Conversation) :
    mapKeys (m ++ [(k, v)]) = mapKeys m ++ [k] := by
  simp [mapKeys]

lemma mapKeys_mapSet (m : ConvMap) (k : String) (v : Conversation) :
    mapKeys (mapSet m k v) =
      if k ∈ mapKeys m then mapKeys m else mapKeys m ++ [k] := by
  by_cases h : k ∈ mapKeys m
  · rw [mapSet_eq_setAll v h, mapKeys_setAll, if_pos h]
  · rw [mapSet_eq_append v h, mapKeys_append_single, if_neg h]

lemma goodMap_nil : goodMap [] := ⟨List.nodup_nil, by simp⟩

lemma goodMap_cons {p : String × Conversation} {t : ConvMap} (h : goodMap (p :: t)) :
    goodMap t :=
  ⟨(List.nodup_cons.1 (by rw [← mapKeys_cons]; exact h.1)).2,
   fun q hq => h.2 q (List.mem_cons_of_mem p hq)⟩

lemma goodMap_mapSet {m : ConvMap} {k : String} {v : Conversation}
    (hm : goodMap m) (hv : v.id = k) : goodMap (mapSet m k v) := by
  by_cases h : k ∈ mapKeys m
  · rw [mapSet_eq_setAll v h]
    refine ⟨by rw [mapKeys_setAll]; exact hm.1, fun p hp => ?_⟩
    obtain ⟨q, hq, he⟩ := List.mem_map.1 hp
    cases hb : (q.1 == k) with
    | true =>
      rw [← he]
      simp [hb, hv]
    | false =>
      rw [← he]
      simp only [hb, Bool.false_eq_true, if_false]
      exact hm.2 q hq
  · rw [mapSet_eq_append v h]
    refine ⟨?_, fun p hp => ?_⟩
    · rw [mapKeys_append_single, List.nodup_append]
      refine ⟨hm.1, List.nodup_singleton k, fun a ha hb => ?_⟩
      rw [List.mem_singleton] at hb
      exact h (hb ▸ ha)
    · rcases List.mem_append.1 hp with h1 | h1
      · exact hm.2 p h1
      · rw [List.mem_singleton.1 h1]; exact hv

lemma spread_id (e n : Conversation) : (spread e n).id = n.id := rfl

lemma goodMap_upsert {m : ConvMap} (hm : goodMap m) (n : Conversation) :
    goodMap (upsertIntoMap m n) := by
  unfold upsertIntoMap
  cases mapGet m n.id with
  | some e => exact goodMap_mapSet hm (spread_id e n)
  | none => exact goodMap_mapSet hm rfl

lemma goodMap_foldl_mapSet (cs : List Conversation) :
    ∀ (m : ConvMap), goodMap m →
      goodMap (cs.foldl (fun acc c => mapSet acc c.id c) m) := by
  induction cs with
  | nil => intro m hm; exact hm
  | cons c t ih =>
    intro m hm
    exact ih (mapSet m c.id c) (goodMap_mapSet hm rfl)

lemma goodMap_mapFromList (cs : List Conversation) : goodMap (mapFromList cs) :=
  goodMap_foldl_mapSet cs [] goodMap_nil

lemma goodMap_applyBatch (b : List Conversation) :
    ∀ (m : ConvMap), goodMap m → goodMap (applyBatch m b) := by
  induction b with
  | nil => intro m hm; exact hm
  | cons n rest ih =>
    intro m hm
    exact ih (upsertIntoMap m n) (goodMap_upsert hm n)

lemma mapGet_upsert_self (m : ConvMap) (n : Conversation) :
    mapGet (upsertIntoMap m n) n.id = mergeStep (mapGet m n.id) n := by
  unfold upsertIntoMap mergeStep
  cases hg : mapGet m n.id with
  | some e => exact mapGet_mapSet_self m n.id (spread e n)
  | none => exact mapGet_mapSet_self m n.id n

lemma mapGet_upsert_ne (m : ConvMap) (n : Conversation) (k : String) (h : k ≠ n.id) :
    mapGet (upsertIntoMap m n) k = mapGet m k := by
  unfold upsertIntoMap
  cases mapGet m n.id with
  | some e => exact mapGet_mapSet_ne m n.id k (spread e n) h
  | none => exact mapGet_mapSet_ne m n.id k n h

lemma mapGet_applyBatch (b : List Conversation) :
    ∀ (m : ConvMap) (k : String),
      mapGet (applyBatch m b) k =
        mergeChain (mapGet m k) (b.filter (fun c => c.id == k)) := by
  induction b with
  | nil => intro m k; rfl
  | cons n rest ih =>
    intro m k
    have hstep : applyBatch m (n :: rest) = applyBatch (upsertIntoMap m n) rest := rfl
    rw [hstep, ih]
    rw [List.filter_cons]
    by_cases hid : n.id = k
    · have hb : (n.id == k) = true := by simp [hid]
      rw [hb]
      simp only [if_true]
      have hh : mapGet (upsertIntoMap m n) k = mergeStep (mapGet m k) n := by
        rw [← hid]
        exact mapGet_upsert_self m n
      rw [hh]
      rfl
    · have hb : (n.id == k) = false := by simp [hid]
      rw [hb]
      simp only [Bool.false_eq_true, if_false]
      rw [mapGet_upsert_ne m n k (fun he => hid he.symm)]

lemma mem_keys_upsert_self (m : ConvMap) (n : Conversation) :
    n.id ∈ mapKeys (upsertIntoMap m n) := by
  unfold upsertIntoMap
  cases mapGet m n.id with
  | some e =>
    rw [mapKeys_mapSet]
    by_cases h : n.id ∈ mapKeys m
    · rw [if_pos h]; exact h
    · rw [if_neg h]; exact List.mem_append_right _ (List.mem_singleton_self _)
  | none =>
    rw [mapKeys_mapSet]
    by_cases h : n.id ∈ mapKeys m
    · rw [if_pos h]; exact h
    · rw [if_neg h]; exact List.mem_append_right _ (List.mem_singleton_self _)

lemma mem_keys_upsert_mono (m : ConvMap) (n : Conversation) (k : String)
    (h : k ∈ mapKeys m) : k ∈ mapKeys (upsertIntoMap m n) := by
  unfold upsertIntoMap
  cases mapGet m n.id with
  | some e =>
    rw [mapKeys_mapSet]
    by_cases h2 : n.id ∈ mapKeys m
    · rw [if_pos h2]; exact h
    · rw [if_neg h2]; exact List.mem_append_left _ h
  | none =>
    rw [mapKeys_mapSet]
    by_cases h2 : n.id ∈ mapKeys m
    · rw [if_pos h2]; exact h
    · rw [if_neg h2]; exact List.mem_append_left _ h

lemma mem_keys_applyBatch_mono (b : List Conversation) :
    ∀ (m : ConvMap) (k : String), k ∈ mapKeys m → k ∈ mapKeys (applyBatch m b) := by
  induction b with
  | nil => intro m k h; exact h
  | cons n rest ih =>
    intro m k h
    exact ih (upsertIntoMap m n) k (mem_keys_upsert_mono m n k h)

lemma batch_mem_keys_applyBatch (b : List Conversation) :
    ∀ (m : ConvMap) (c : Conversation), c ∈ b → c.id ∈ mapKeys (applyBatch m b) := by
  induction b with
  | nil => intro m c h; exact absurd h (List.not_mem_nil c)
  | cons n rest ih =>
    intro m c hc
    rcases List.mem_cons.1 hc with h | h
    · subst h
      exact mem_keys_applyBatch_mono rest (upsertIntoMap m c) c.id (mem_keys_upsert_self m c)
    · exact ih (upsertIntoMap m n) c h

lemma mapKeys_upsert_of_mem (m : ConvMap) (n : Conversation) (h : n.id ∈ mapKeys m) :
    mapKeys (upsertIntoMap m n) = mapKeys m := by
  unfold upsertIntoMap
  cases mapGet m n.id with
  | some e => rw [mapKeys_mapSet, if_pos h]
  | none => rw [mapKeys_mapSet, if_pos h]

lemma mapKeys_applyBatch_of_mem (b : List Conversation) :
    ∀ (m : ConvMap), (∀ c ∈ b, c.id ∈ mapKeys m) →
      mapKeys (applyBatch m b) = mapKeys m := by
  induction b with
  | nil => intro m _; rfl
  | cons n rest ih =>
    intro m h
    have h1 : mapKeys (upsertIntoMap m n) = mapKeys m :=
      mapKeys_upsert_of_mem m n (h n (List.mem_cons_self n rest))
    have h2 : ∀ c ∈ rest, c.id ∈ mapKeys (upsertIntoMap m n) := by
      intro c hc
      rw [h1]
      exact h c (List.mem_cons_of_mem n hc)
    have hstep : applyBatch m (n :: rest) = applyBatch (upsertIntoMap m n) rest := rfl
    rw [hstep, ih (upsertIntoMap m n) h2, h1]

lemma map_ext : ∀ (m m' : ConvMap), goodMap m → goodMap m' →
    mapKeys m = mapKeys m' → (∀ k, mapGet m k = mapGet m' k) → m = m' := by
  intro m
  induction m with
  | nil =>
    intro m' _ _ hk _
    cases m' with
    | nil => rfl
    | cons p' t' => simp [mapKeys] at hk
  | cons p t ih =>
    intro m' hm hm' hk hg
    cases m' with
    | nil => simp [mapKeys] at hk
    | cons p' t' =>
      rw [mapKeys_cons, mapKeys_cons] at hk
      have hk1 : p.1 = p'.1 := by
        have := congrArg (fun l => l.headD "") hk
        simpa using this
      have hk2 : mapKeys t = mapKeys t' := by
        have := congrArg List.tail hk
        simpa using this
      have hv : p.2 = p'.2 := by
        have h1 := hg p.1
        rw [mapGet_cons, mapGet_cons] at h1
        rw [if_pos (by simp : (p.1 == p.1) = true)] at h1
        rw [if_pos (by simp [hk1] : (p'.1 == p.1) = true)] at h1
        exact Option.some.inj h1
      have hp : p = p' := Prod.ext hk1 hv
      have htails : ∀ k, mapGet t k = mapGet t' k := by
        intro k
        by_cases hkp : k = p.1
        · have hnt : p.1 ∉ mapKeys t :=
            (List.nodup_cons.1 (show (p.1 :: mapKeys t).Nodup from hm.1)).1
          have hnt' : p'.1 ∉ mapKeys t' :=
            (List.nodup_cons.1 (show (p'.1 :: mapKeys t').Nodup from hm'.1)).1
          have hn1 : mapGet t k = none := by
            rw [mapGet_eq_none_iff, hkp]; exact hnt
          have hn2 : mapGet t' k = none := by
            rw [mapGet_eq_none_iff, hkp, hk1]; exact hnt'
          rw [hn1, hn2]
        · have h1 := hg k
          rw [mapGet_cons, mapGet_cons] at h1
          rw [if_neg (by simp only [beq_iff_eq]; exact fun h => hkp h.symm :
            ¬((p.1 == k) = true))] at h1
          rw [if_neg (by simp only [beq_iff_eq]; rw [← hk1]; exact fun h => hkp h.symm :
            ¬((p'.1 == k) = true))] at h1
          exact h1
      rw [hp]
      congr 1
      exact ih t' (goodMap_cons hm) (goodMap_cons hm') hk2 htails

lemma idList_cons (c : Conversation) (t : List Conversation) :
    idList (c :: t) = c.id :: idList t := rfl

lemma foldl_mapSet_append : ∀ (cs : List Conversation) (m : ConvMap),
    (idList cs).Nodup → (∀ c ∈ cs, c.id ∉ mapKeys m) →
    cs.foldl (fun acc c => mapSet acc c.id c) m = m ++ cs.map (fun c => (c.id, c)) := by
  intro cs
  induction cs with
  | nil => intro m _ _; simp
  | cons c t ih =>
    intro m hnd hmem
    have hnd' := List.nodup_cons.1 (show (c.id :: idList t).Nodup from hnd)
    rw [List.foldl_cons, mapSet_eq_append c (hmem c (List.mem_cons_self c t))]
    rw [ih (m ++ [(c.id, c)]) hnd'.2 ?hmem2]
    · simp
    case hmem2 =>
      intro c' hc'
      rw [mapKeys_append_single]
      intro hmem2
      rcases List.mem_append.1 hmem2 with h1 | h1
      · exact hmem c' (List.mem_cons_of_mem c hc') h1
      · exact hnd'.1 (List.mem_map.2 ⟨c', hc', List.mem_singleton.1 h1⟩)

lemma mapFromList_pairs (cs : List Conversation) (h : (idList cs).Nodup) :
    mapFromList cs = cs.map (fun c => (c.id, c)) := by
  have := foldl_mapSet_append cs [] h (by intro c _; simp [mapKeys])
  simpa [mapFromList] using this

lemma mapValues_pairs (cs : List Conversation) :
    mapValues (cs.map (fun c => (c.id, c))) = cs := by
  simp only [mapValues, List.map_map]
  have h : ((fun p : String × Conversation => p.2) ∘ fun c : Conversation => (c.id, c)) = id :=
    rfl
  rw [h, List.map_id]

lemma idList_mapValues {m : ConvMap} (hm : goodMap m) :
    idList (mapValues m) = mapKeys m := by
  simp only [idList, mapValues, mapKeys, List.map_map]
  exact List.map_congr_left (fun p hp => hm.2 p hp)

lemma mapFromList_mapValues {m : ConvMap} (hm : goodMap m) :
    mapFromList (mapValues m) = m := by
  rw [mapFromList_pairs _ (by rw [idList_mapValues hm]; exact hm.1)]
  simp only [mapValues, List.map_map]
  have : ∀ p ∈ m, ((fun c => (c.id, c)) ∘ fun p : String × Conversation => p.2) p = p := by
    intro p hp
    simp only [Function.comp_apply]
    rw [hm.2 p hp]
  rw [List.map_congr_left this, List.map_id']

lemma mapGet_pairs (cs : List Conversation) (k : String) :
    mapGet (cs.map (fun c => (c.id, c))) k = cs.find? (fun c => c.id == k) := by
  induction cs with
  | nil => rfl
  | cons c t ih =>
    rw [List.map_cons, mapGet_cons, List.find?_cons]
    cases hb : (c.id == k) <;> simp [hb, ih]

lemma find?_mapValues {m : ConvMap} (hm : goodMap m) (k : String) :
    (mapValues m).find? (fun c => c.id == k) = mapGet m k := by
  induction m with
  | nil => rfl
  | cons p t ih =>
    have hid : p.2.id = p.1 := hm.2 p (List.mem_cons_self p t)
    rw [show mapValues (p :: t) = p.2 :: mapValues t from rfl, List.find?_cons, mapGet_cons]
    rw [hid]
    cases hb : (p.1 == k) <;> simp [hb, ih (goodMap_cons hm)]

lemma applyBatch_twice {m : ConvMap} (hm : goodMap m) (b : List Conversation) :
    applyBatch (applyBatch m b) b = applyBatch m b := by
  refine map_ext _ _ (goodMap_applyBatch b _ (goodMap_applyBatch b m hm))
    (goodMap_applyBatch b m hm) ?_ ?_
  · exact mapKeys_applyBatch_of_mem b _ (fun c hc => batch_mem_keys_applyBatch b m c hc)
  · intro k
    rw [mapGet_applyBatch, mapGet_applyBatch]
    exact mergeChain_absorb _ _

/-- C4: applying the same batch twice in a row yields the same final
conversations collection as applying it once. -/
theorem c4_idempotent (db : Store) (req : Request) :
    (addConversations (addConversations db req).1 req).1.conversations =
      (addConversations db req).1.conversations := by
  cases hb : (req.conversations.getD []).isEmpty with
  | true => simp [addConversations, hb]
  | false =>
    have gm1 : goodMap (applyBatch (mapFromList db.conversations)
        (req.conversations.getD [])) :=
      goodMap_applyBatch _ _ (goodMap_mapFromList _)
    simp only [addConversations, hb, Bool.not_false, if_true]
    rw [mapFromList_mapValues gm1, applyBatch_twice (goodMap_mapFromList _)]

/-- C5: per id, `addConversations` behaves as the fold of the shallow
incoming-wins merge over the batch entries carrying that id, in input
order, starting from the existing record when one exists (fields present on
the incoming record override, fields absent from it are preserved) and from
the first such entry otherwise (inserted as a new record); in particular a
later entry for an id supersedes earlier entries of the same batch. -/
theorem c5_merge (db : Store) (req : Request) (k : String)
    (hnd : (idList db.conversations).Nodup) :
    (addConversations db req).1.conversations.find? (fun c => c.id == k) =
      mergeChain (db.conversations.find? (fun c => c.id == k))
        ((req.conversations.getD []).filter (fun c => c.id == k)) := by
  cases hb : (req.conversations.getD []).isEmpty with
  | true =>
    have hb' : req.conversations.getD [] = [] := List.isEmpty_iff.1 hb
    simp [addConversations, hb, hb', mergeChain]
  | false =>
    simp only [addConversations, hb, Bool.not_false, if_true]
    rw [find?_mapValues (goodMap_applyBatch _ _ (goodMap_mapFromList _)) k]
    rw [mapGet_applyBatch]
    rw [mapFromList_pairs _ hnd, mapGet_pairs]

/-- C7: if the conversations collection holds at most one record per id,
then after any `addConversations` call it still holds at most one record
per id. -/
theorem c7_id_invariant (db : Store) (req : Request)
    (hnd : (idList db.conversations).Nodup) :
    (idList (addConversations db req).1.conversations).Nodup := by
  cases hb : (req.conversations.getD []).isEmpty with
  | true => simpa [addConversations, hb] using hnd
  | false =>
    simp only [addConversations, hb, Bool.not_false, if_true]
    have gm : goodMap (applyBatch (mapFromList db.conversations)
        (req.conversations.getD [])) :=
      goodMap_applyBatch _ _ (goodMap_mapFromList _)
    rw [idList_mapValues gm]
    exact gm.1

lemma setAll_of_not_mem {m : ConvMap} {k : String} (v : Conversation)
    (h : k ∉ mapKeys m) : setAll m k v = m := by
  unfold setAll
  have : ∀ p ∈ m, (if p.1 == k then (k, v) else p) = p := by
    intro p hp
    rw [if_neg]
    simp only [beq_iff_eq]
    intro he
    exact h (List.mem_map.2 ⟨p, hp, he⟩)
  rw [List.map_congr_left this, List.map_id']

lemma mapKeys_pairs (cs : List Conversation) :
    mapKeys (cs.map (fun c => (c.id, c))) = idList cs := by
  simp [mapKeys, idList, List.map_map]

lemma goodMap_pairs {cs : List Conversation} (h : (idList cs).Nodup) :
    goodMap (cs.map (fun c => (c.id, c))) := by
  refine ⟨by rw [mapKeys_pairs]; exact h, fun p hp => ?_⟩
  obtain ⟨c, _, he⟩ := List.mem_map.1 hp
  rw [← he]

lemma upsertIntoList_cons_eq (c : Conversation) (cs : List Conversation) (n : Conversation)
    (h : (c.id == n.id) = true) :
    upsertIntoList (c :: cs) n = spread c n :: cs := by
  unfold upsertIntoList
  rw [List.findIdx?_cons, if_pos h]
  simp [List.getD]

lemma upsertIntoList_cons_ne (c : Conversation) (cs : List Conversation) (n : Conversation)
    (h : (c.id == n.id) = false) :
    upsertIntoList (c :: cs) n = c :: upsertIntoList cs n := by
  unfold upsertIntoList
  rw [List.findIdx?_cons, if_neg (by simp [h]), List.findIdx?_succ]
  cases hf : cs.findIdx? (fun c' => c'.id == n.id) with
  | some j => simp [hf, List.getD]
  | none => simp [hf]

lemma mapSet_cons_ne (p : String × Conversation) (t : ConvMap) (k : String)
    (v : Conversation) (h : (p.1 == k) = false) :
    mapSet (p :: t) k v = p :: mapSet t k v := by
  unfold mapSet
  rw [List.any_cons, h, Bool.false_or]
  cases ha : t.any (fun q => q.1 == k) with
  | true =>
    rw [if_pos rfl, if_pos rfl]
    rw [List.map_cons, if_neg (by simp [h])]
  | false =>
    rw [if_neg (by simp), if_neg (by simp)]
    rfl

lemma upsertIntoMap_cons_ne (p : String × Conversation) (t : ConvMap) (n : Conversation)
    (h : (p.1 == n.id) = false) :
    upsertIntoMap (p :: t) n = p :: upsertIntoMap t n := by
  unfold upsertIntoMap
  rw [mapGet_cons, if_neg (by simp [h])]
  cases hg : mapGet t n.id with
  | some e => exact mapSet_cons_ne p t n.id (spread e n) h
  | none => exact mapSet_cons_ne p t n.id n h

lemma upsert_pairs (n : Conversation) : ∀ (cs : List Conversation),
    (idList cs).Nodup →
    upsertIntoMap (cs.map (fun c => (c.id, c))) n =
      (upsertIntoList cs n).map (fun c => (c.id, c)) := by
  intro cs
  induction cs with
  | nil => intro _; rfl
  | cons c t ih =>
    intro hnd
    have hnd' := List.nodup_cons.1 (show (c.id :: idList t).Nodup from hnd)
    cases hb : (c.id == n.id) with
    | true =>
      have hcn : c.id = n.id := by simpa using hb
      rw [upsertIntoList_cons_eq c t n hb]
      rw [List.map_cons, List.map_cons]
      unfold upsertIntoMap
      have hget : mapGet ((c.id, c) :: t.map (fun c => (c.id, c))) n.id = some c := by
        rw [mapGet_cons, if_pos (by simp [hcn])]
      simp only [hget]
      have hmem : n.id ∈ mapKeys ((c.id, c) :: t.map (fun c => (c.id, c))) := by
        rw [mapKeys_cons, ← hcn]
        exact List.mem_cons_self _ _
      rw [mapSet_eq_setAll _ hmem, setAll_cons, if_pos (by simp [hcn])]
      have hnk : n.id ∉ mapKeys (t.map (fun c => (c.id, c))) := by
        rw [mapKeys_pairs, ← hcn]
        exact hnd'.1
      rw [setAll_of_not_mem _ hnk]
      rfl
    | false =>
      rw [upsertIntoList_cons_ne c t n hb, List.map_cons, List.map_cons]
      rw [upsertIntoMap_cons_ne (c.id, c) _ n hb]
      rw [ih hnd'.2]

lemma nodup_upsertIntoList {cs : List Conversation} (n : Conversation)
    (hnd : (idList cs).Nodup) : (idList (upsertIntoList cs n)).Nodup := by
  have h1 : (upsertIntoList cs n).map (fun c => (c.id, c)) =
      upsertIntoMap (cs.map (fun c => (c.id, c))) n := (upsert_pairs n cs hnd).symm
  have h2 : idList (upsertIntoList cs n) =
      mapKeys (upsertIntoMap (cs.map (fun c => (c.id, c))) n) := by
    rw [← h1, mapKeys_pairs]
  rw [h2]
  exact (goodMap_upsert (goodMap_pairs hnd) n).1

lemma batch_pairs (b : List Conversation) : ∀ (cs : List Conversation),
    (idList cs).Nodup →
    applyBatch (cs.map (fun c => (c.id, c))) b =
      (b.foldl upsertIntoList cs).map (fun c => (c.id, c)) := by
  induction b with
  | nil => intro cs _; rfl
  | cons n rest ih =>
    intro cs hnd
    have hstep : applyBatch (cs.map (fun c => (c.id, c))) (n :: rest) =
        applyBatch (upsertIntoMap (cs.map (fun c => (c.id, c))) n) rest := rfl
    rw [hstep, upsert_pairs n cs hnd]
    exact ih (upsertIntoList cs n) (nodup_upsertIntoList n hnd)

/-- C10: on any store whose conversations carry distinct ids, the Map-based
and the findIndex-based `addConversations` produce identical results — the
same store (same records in the same order) and the same response count. -/
theorem c10_equivalent (db : Store) (req : Request)
    (hnd : (idList db.conversations).Nodup) :
    addConversations db req = addConversationsFindIdx db req := by
  cases hb : (req.conversations.getD []).isEmpty with
  | true =>
    have hb' : req.conversations.getD [] = [] := List.isEmpty_iff.1 hb
    simp [addConversations, addConversationsFindIdx, hb, hb']
  | false =>
    simp only [addConversations, addConversationsFindIdx, hb, Bool.not_false, if_true]
    rw [mapFromList_pairs _ hnd, batch_pairs _ _ hnd, mapValues_pairs]


/-- C5, witness: the merge theorem applied to the spec's precedence
example — existing record with id "1", title "A", x = 1, incoming record
with id "1", title "B". -/
theorem c5_witness :
    (idList [cEx]).Nodup ∧
    (addConversations { conversations := [cEx] }
        { conversations := some [nEx] }).1.conversations.find? (fun c => c.id == "1") =
      mergeChain ([cEx].find? (fun c => c.id == "1"))
        ([nEx].filter (fun c => c.id == "1")) :=
  ⟨by decide,
   c5_merge { conversations := [cEx] } { conversations := some [nEx] } "1" (by decide)⟩

/-- C7, witness: the invariant theorem applied at a one-conversation store
and a one-record batch with a different id. -/
theorem c7_witness :
    (idList [cW1]).Nodup ∧
    (idList (addConversations { conversations := [cW1] }
        { conversations := some [cW2] }).1.conversations).Nodup :=
  ⟨by decide,
   c7_id_invariant { conversations := [cW1] } { conversations := some [cW2] } (by decide)⟩

/-- C10, witness: the equivalence theorem applied at a one-conversation
store and a batch holding an update for it and a new record. -/
theorem c10_witness :
    (idList [cW1]).Nodup ∧
    addConversations { conversations := [cW1] }
        { conversations := some [{ id := "w1", title := some "t" }, cW2] } =
      addConversationsFindIdx { conversations := [cW1] }
        { conversations := some [{ id := "w1", title := some "t" }, cW2] } :=
  ⟨by decide,
   c10_equivalent { conversations := [cW1] }
     { conversations := some [{ id := "w1", title := some "t" }, cW2] } (by decide)⟩

end LocalGPT
